import Mathlib

/-!
Shallow embedding of the index-reconciliation logic of the typed-mongo
library: `Model.syncIndexes` (src/model.ts, lines 74-124) and the
orchestrator `TypedMongo` (src/index.ts).  The MongoDB driver is an
external collaborator; it is represented by an abstract operations
record (`StoreOps`) threaded through an explicit state, plus a trace of
the operations issued, and by one concrete instance (`mongoStore`)
that realises the store contract of spec §6.
-/

namespace TypedMongoSpec

/-- Desired-state value for one index (src/model.ts `ModelOptions.indexes`
entries, mongodb `IndexDescription`): the ordered key mapping and the
optional explicit name.  Only the name identity matters to the diff. -/
structure IndexDescription where
  key : List (String × Int)
  name : Option String
  deriving DecidableEq, Repr

/-- Modelled from the spec (§3): the store-side canonical name of a
descriptor is its explicit `name` when given, otherwise derived from the
key as `field_direction` parts joined by underscores. -/
def indexName (d : IndexDescription) : String :=
  match d.name with
  | some n => n
  | none => String.intercalate "_" (d.key.map (fun p => p.1 ++ "_" ++ toString p.2))

/-- Fields of a `MongoServerError` inspected by `Model.syncIndexes`
(src/model.ts lines 90-93): `code` and `codeName`. -/
structure MongoServerErrorData where
  code : Option Int
  codeName : Option String
  deriving DecidableEq, Repr

/-- Errors thrown by store calls: `server` mirrors `MongoServerError`
(the only class the code discriminates on), `other` any other thrown
value. -/
inductive MongoError where
  | server (data : MongoServerErrorData)
  | other (msg : String)
  deriving DecidableEq, Repr

/-- Guard of the catch clause in src/model.ts lines 90-93:
`error instanceof MongoServerError` and
`error.code === 26 || error.codeName === 'NamespaceNotFound'`. -/
def isNamespaceNotFound : MongoError → Bool
  | .server d => d.code == some 26 || d.codeName == some "NamespaceNotFound"
  | .other _ => false

/-- Return type of `Model.syncIndexes` (src/model.ts lines 46-49). -/
structure SyncIndexesResult where
  created : List String
  dropped : List String
  deriving DecidableEq, Repr

/-- Store operations a `Model` can issue on its collection, recorded in
the trace so that frame properties (which calls were made) are
statable. -/
inductive StoreOp where
  | listIndexes
  | createIndexes (descs : List IndexDescription)
  | dropIndex (name : String)
  deriving DecidableEq, Repr

/-- Abstract store interface for one collection, explicit-state form of
the mongodb driver calls used by `Model.syncIndexes`.  Listing is
read-only; creation returns the authoritative name list and a new
state; a drop returns a new state. -/
structure StoreOps (σ : Type) where
  listIndexes : σ → Except MongoError (List String)
  createIndexes : σ → List IndexDescription → Except MongoError (List String × σ)
  dropIndex : σ → String → Except MongoError σ

/-- Step 3 of `Model.syncIndexes`, src/model.ts line 105:
`oldIndexNames.filter((item) => !newIndexNamesSet.has(item))`;
`Set.has` on a set built from a list is list membership. -/
def toDropIndexNames (oldIndexNames newIndexNames : List String) : List String :=
  oldIndexNames.filter (fun item => !newIndexNames.contains item)

/-- Step 3 of `Model.syncIndexes`, src/model.ts line 106:
`newIndexNames.filter((item) => !oldIndexNamesSet.has(item))`. -/
def createdIndexNames (oldIndexNames newIndexNames : List String) : List String :=
  newIndexNames.filter (fun item => !oldIndexNames.contains item)

/-- Step 4 of `Model.syncIndexes`, the for-loop of src/model.ts lines
109-118: drop each candidate in order, skipping `_id_`, accumulating
successfully dropped names; the first drop failure aborts the loop and
the error propagates (the accumulator is lost). -/
def dropObsolete {σ : Type} (ops : StoreOps σ) :
    σ → List String → List String → List StoreOp →
    Except MongoError (List String) × σ × List StoreOp
  | s, [], acc, tr => (.ok acc, s, tr)
  | s, n :: rest, acc, tr =>
    if n = "_id_" then
      dropObsolete ops s rest acc tr
    else
      match ops.dropIndex s n with
      | .error e => (.error e, s, tr ++ [.dropIndex n])
      | .ok s1 => dropObsolete ops s1 rest (acc ++ [n]) (tr ++ [.dropIndex n])

/-- Transliteration of `Model.syncIndexes` (src/model.ts lines 74-124).
`indexes` is the model's `this.indexes` (absent or a descriptor list);
the result is the returned value or thrown error, the final store
state, and the trace of store calls issued. -/
def syncIndexes {σ : Type} (ops : StoreOps σ) (indexes : Option (List IndexDescription))
    (s : σ) : Except MongoError SyncIndexesResult × σ × List StoreOp :=
  match indexes with
  | none => (.ok ⟨[], []⟩, s, [])
  | some idxs =>
    if idxs.length = 0 then (.ok ⟨[], []⟩, s, [])
    else
      match ops.listIndexes s with
      | .error e =>
        -- src/model.ts lines 88-96: the NamespaceNotFound branch assigns
        -- `oldIndexNames = []`, but the `throw error` that follows is
        -- unconditional, so every listing error is rethrown and the
        -- assignment is dead.
        let _oldIndexNames : List String := if isNamespaceNotFound e then [] else []
        (.error e, s, [.listIndexes])
      | .ok oldIndexNames =>
        match ops.createIndexes s idxs with
        | .error e => (.error e, s, [.listIndexes, .createIndexes idxs])
        | .ok (newIndexNames, s1) =>
          let toDrop := toDropIndexNames oldIndexNames newIndexNames
          let created := createdIndexNames oldIndexNames newIndexNames
          match dropObsolete ops s1 toDrop [] [.listIndexes, .createIndexes idxs] with
          | (.error e, s2, tr) => (.error e, s2, tr)
          | (.ok dropped, s2, tr) => (.ok ⟨created, dropped⟩, s2, tr)

/-- State of one collection in the store: `none` when the collection
does not exist, otherwise the list of index names defined on it. -/
abbrev CollState := Option (List String)

/-- Modelled from the spec (§6): `listIndexes` fails with NamespaceNotFound
(code 26) when the collection does not exist, otherwise returns the
names of every index on it. -/
def mongoListIndexes (s : CollState) : Except MongoError (List String) :=
  match s with
  | none => .error (.server ⟨some 26, some "NamespaceNotFound"⟩)
  | some names => .ok names

/-- Modelled from the spec (§6): `createIndexes` is idempotent for
already-existing names, creates the collection (with its `_id_` index)
on first use, and returns exactly the names the descriptors resolve to. -/
def mongoCreateIndexes (s : CollState) (descs : List IndexDescription) :
    Except MongoError (List String × CollState) :=
  let existing :=
    match s with
    | none => ["_id_"]
    | some names => names
  let requested := descs.map indexName
  let added := requested.filter (fun n => !existing.contains n)
  .ok (requested, some (existing ++ added))

/-- Modelled from the spec (§6): `dropIndex` removes the named index,
failing when the collection or the index does not exist. -/
def mongoDropIndex (s : CollState) (n : String) : Except MongoError CollState :=
  match s with
  | none => .error (.server ⟨some 26, some "NamespaceNotFound"⟩)
  | some names =>
    if names.contains n then .ok (some (names.filter (fun m => !(m == n))))
    else .error (.server ⟨some 27, some "IndexNotFound"⟩)

/-- The concrete happy-path store realising the contract of spec §6. -/
def mongoStore : StoreOps CollState :=
  ⟨mongoListIndexes, mongoCreateIndexes, mongoDropIndex⟩

/-- A store whose `createIndexes` fails with the conflict error MongoDB
raises when a descriptor's name matches an existing index of different
shape (spec §6). -/
def conflictStore : StoreOps CollState :=
  { mongoStore with
    createIndexes := fun _ _ =>
      .error (.server ⟨some 85, some "IndexOptionsConflict"⟩) }

/-- A store identical to `mongoStore` except that dropping the index
named `failOn` fails. -/
def faultyDropStore (failOn : String) : StoreOps CollState :=
  { mongoStore with
    dropIndex := fun s n =>
      if n = failOn then .error (.other "drop failed") else mongoDropIndex s n }

/-- One entry of the aggregate result type `SyncIndexesResults`
(src/index.ts lines 8-12). -/
structure SyncIndexesResultsEntry where
  collectionName : String
  created : List String
  dropped : List String
  deriving DecidableEq, Repr

/-- State of a `Model` relevant to index synchronization (src/model.ts
lines 54-61): the collection it is bound to and its declared desired
indexes. -/
structure ModelState where
  collectionName : String
  indexes : Option (List IndexDescription)
  deriving DecidableEq, Repr

/-- Database-level store interface: the per-collection operations keyed
by collection name. -/
structure DbOps (δ : Type) where
  listIndexes : δ → String → Except MongoError (List String)
  createIndexes : δ → String → List IndexDescription → Except MongoError (List String × δ)
  dropIndex : δ → String → String → Except MongoError δ

/-- View of a database-level store as the single-collection interface
one model uses (src/model.ts line 59, `db.collection(collectionName)`). -/
def collOps {δ : Type} (ops : DbOps δ) (name : String) : StoreOps δ :=
  ⟨fun s => ops.listIndexes s name,
   fun s descs => ops.createIndexes s name descs,
   fun s n => ops.dropIndex s name n⟩

/-- Registry of models: the JS `Map` keyed by collection name of
src/index.ts line 16, represented as an insertion-ordered association
list whose keys are pairwise distinct. -/
abbrev ModelRegistry := List (String × ModelState)

/-- JS `Map.prototype.set` semantics on the registry (src/index.ts line
25): an existing key keeps its position and receives the new value; a
new key is appended at the end. -/
def mapSet : ModelRegistry → String → ModelState → ModelRegistry
  | [], k, v => [(k, v)]
  | p :: rest, k, v => if p.1 = k then (k, v) :: rest else p :: mapSet rest k v

/-- Transliteration of `TypedMongo.model` (src/index.ts lines 20-27):
construct the model bound to `collectionName` and register it under
that name. -/
def tmModel (models : ModelRegistry) (collectionName : String)
    (indexes : Option (List IndexDescription)) : ModelRegistry :=
  mapSet models collectionName ⟨collectionName, indexes⟩

/-- Transliteration of `TypedMongo.syncIndexes` (src/index.ts lines
38-51): visit the registered models in map order, run each model's
`syncIndexes`, and collect one `{collectionName, created, dropped}`
entry per model; a thrown error propagates immediately, discarding the
entries already collected and skipping the remaining models. -/
def tmSyncIndexes {δ : Type} (ops : DbOps δ) :
    ModelRegistry → δ →
    Except MongoError (List SyncIndexesResultsEntry) × δ × List (String × StoreOp)
  | [], s => (.ok [], s, [])
  | (_, m) :: rest, s =>
    match syncIndexes (collOps ops m.collectionName) m.indexes s with
    | (.error e, s1, tr) => (.error e, s1, tr.map (fun op => (m.collectionName, op)))
    | (.ok r, s1, tr) =>
      match tmSyncIndexes ops rest s1 with
      | (.error e, s2, tr2) =>
        (.error e, s2, tr.map (fun op => (m.collectionName, op)) ++ tr2)
      | (.ok entries, s2, tr2) =>
        (.ok (⟨m.collectionName, r.created, r.dropped⟩ :: entries), s2,
         tr.map (fun op => (m.collectionName, op)) ++ tr2)

/-- Database state for the concrete store: collection states keyed by
collection name; an absent key is a collection that does not exist. -/
abbrev DbState := List (String × CollState)

/-- Look up a collection's state in the database. -/
def dbGet (d : DbState) (name : String) : CollState :=
  match d.find? (fun p => p.1 == name) with
  | some p => p.2
  | none => none

/-- Replace, or add, a collection's state in the database. -/
def dbSet : DbState → String → CollState → DbState
  | [], name, c => [(name, c)]
  | p :: rest, name, c =>
    if p.1 = name then (name, c) :: rest else p :: dbSet rest name c

/-- The concrete multi-collection store built from the single-collection
contract store. -/
def mongoDb : DbOps DbState :=
  ⟨fun d n => mongoListIndexes (dbGet d n),
   fun d n descs =>
     match mongoCreateIndexes (dbGet d n) descs with
     | .error e => .error e
     | .ok (names, c) => .ok (names, dbSet d n c),
   fun d n idx =>
     match mongoDropIndex (dbGet d n) idx with
     | .error e => .error e
     | .ok c => .ok (dbSet d n c)⟩

/-- Claim C4: when the desired index list is absent or empty,
`syncIndexes` issues no store operation at all, leaves the store state
unchanged, and returns empty `created` and `dropped` lists
(src/model.ts lines 75-80). -/
theorem syncIndexes_noop_on_empty_desired {σ : Type} (ops : StoreOps σ) (s : σ)
    (indexes : Option (List IndexDescription))
    (h : indexes = none ∨ indexes = some []) :
    syncIndexes ops indexes s = (.ok ⟨[], []⟩, s, []) := by
  rcases h with h | h <;> subst h <;> rfl

/-- Witness for `syncIndexes_noop_on_empty_desired` at a store holding
two indexes and an absent desired list. -/
theorem syncIndexes_noop_on_empty_desired_witness :
    syncIndexes mongoStore none (some ["a_1", "b_1"]) = (.ok ⟨[], []⟩, some ["a_1", "b_1"], []) :=
  syncIndexes_noop_on_empty_desired mongoStore (some ["a_1", "b_1"]) none (Or.inl rfl)

/-- Claim C1: run against a store where the collection does not exist,
so listing fails with `MongoServerError` code 26 / NamespaceNotFound.
The guard of the catch clause matches this error, yet `syncIndexes`
rethrows it and stops: the `oldIndexNames = []` assignment in
src/model.ts line 92 is dead because the `throw error` in line 95 is
unconditional.  This contradicts the comment in line 89 and the spec
(§4.1, §8), which treat a missing collection as an empty baseline. -/
theorem syncIndexes_rethrows_namespaceNotFound :
    syncIndexes mongoStore (some [⟨[("name", 1)], none⟩]) none =
      (.error (.server ⟨some 26, some "NamespaceNotFound"⟩), none, [.listIndexes]) ∧
    isNamespaceNotFound (.server ⟨some 26, some "NamespaceNotFound"⟩) = true :=
  ⟨rfl, rfl⟩

/-- Claim C8: when the store's `createIndexes` fails, `syncIndexes`
propagates that error unchanged; the trace shows only the listing and
the failed creation — no drop is issued — and the store state is the
one from before the call, so every index that existed still exists. -/
theorem syncIndexes_create_error_no_drops {σ : Type} (ops : StoreOps σ) (s : σ)
    (idxs : List IndexDescription) (old : List String) (e : MongoError)
    (hne : idxs.length ≠ 0)
    (hlist : ops.listIndexes s = .ok old)
    (hcreate : ops.createIndexes s idxs = .error e) :
    syncIndexes ops (some idxs) s = (.error e, s, [.listIndexes, .createIndexes idxs]) := by
  simp [syncIndexes, hne, hlist, hcreate]

/-- Witness for `syncIndexes_create_error_no_drops`: a conflicting
creation over the existing indexes `_id_` and `age_1`. -/
theorem syncIndexes_create_error_no_drops_witness :
    syncIndexes conflictStore (some [⟨[("age", 1)], none⟩]) (some ["_id_", "age_1"]) =
      (.error (.server ⟨some 85, some "IndexOptionsConflict"⟩), some ["_id_", "age_1"],
       [.listIndexes, .createIndexes [⟨[("age", 1)], none⟩]]) :=
  syncIndexes_create_error_no_drops conflictStore (some ["_id_", "age_1"])
    [⟨[("age", 1)], none⟩] ["_id_", "age_1"]
    (.server ⟨some 85, some "IndexOptionsConflict"⟩) (by decide) rfl rfl

/-- Claim C2: under a successful listing (`old`) and creation (`new`),
the created list is `new` without the members of `old` (in `new` order,
a sublist of `new`), the drop-candidate list is `old` without the
members of `new` (in `old` order, a sublist of `old`), and
`syncIndexes` continues with exactly that candidate list and reports
exactly that created list; both are functions of the two input lists,
hence deterministic for a fixed ordering. -/
theorem syncIndexes_diff_spec {σ : Type} (ops : StoreOps σ) (s : σ)
    (idxs : List IndexDescription) (old new : List String) (s1 : σ)
    (hne : idxs.length ≠ 0)
    (hlist : ops.listIndexes s = .ok old)
    (hcreate : ops.createIndexes s idxs = .ok (new, s1)) :
    (∀ n, n ∈ createdIndexNames old new ↔ n ∈ new ∧ n ∉ old) ∧
    (createdIndexNames old new).Sublist new ∧
    (∀ n, n ∈ toDropIndexNames old new ↔ n ∈ old ∧ n ∉ new) ∧
    (toDropIndexNames old new).Sublist old ∧
    syncIndexes ops (some idxs) s =
      (match dropObsolete ops s1 (toDropIndexNames old new) []
          [.listIndexes, .createIndexes idxs] with
       | (.error e, s2, tr) => (.error e, s2, tr)
       | (.ok dropped, s2, tr) =>
         (.ok ⟨createdIndexNames old new, dropped⟩, s2, tr)) := by
  refine ⟨?_, List.filter_sublist _, ?_, List.filter_sublist _, ?_⟩
  · intro n
    simp [createdIndexNames, List.mem_filter]
  · intro n
    simp [toDropIndexNames, List.mem_filter]
  · simp [syncIndexes, hne, hlist, hcreate]

/-- Helper: shape of `syncIndexes` once listing and creation have
succeeded — the drop loop runs on exactly the computed candidate list
and the created list is the computed diff. -/
theorem syncIndexes_create_ok {σ : Type} (ops : StoreOps σ) (s : σ)
    (idxs : List IndexDescription) (old new : List String) (s1 : σ)
    (hne : idxs.length ≠ 0)
    (hlist : ops.listIndexes s = .ok old)
    (hcreate : ops.createIndexes s idxs = .ok (new, s1)) :
    syncIndexes ops (some idxs) s =
      (match dropObsolete ops s1 (toDropIndexNames old new) []
          [.listIndexes, .createIndexes idxs] with
       | (.error e, s2, tr) => (.error e, s2, tr)
       | (.ok dropped, s2, tr) =>
         (.ok ⟨createdIndexNames old new, dropped⟩, s2, tr)) := by
  simp [syncIndexes, hne, hlist, hcreate]

/-- Helper: the drop loop never issues a drop for `_id_` and never puts
`_id_` into a successful result, whatever the store answers. -/
theorem dropObsolete_protects_primary {σ : Type} (ops : StoreOps σ) :
    ∀ (names : List String) (s : σ) (acc : List String) (tr : List StoreOp),
      "_id_" ∉ acc → (∀ op ∈ tr, op ≠ StoreOp.dropIndex "_id_") →
      (∀ op ∈ (dropObsolete ops s names acc tr).2.2, op ≠ StoreOp.dropIndex "_id_") ∧
      (∀ d, (dropObsolete ops s names acc tr).1 = .ok d → "_id_" ∉ d) := by
  intro names
  induction names with
  | nil =>
    intro s acc tr hacc htr
    refine ⟨htr, fun d hd => ?_⟩
    simp only [dropObsolete] at hd
    cases hd
    exact hacc
  | cons n rest ih =>
    intro s acc tr hacc htr
    by_cases hn : n = "_id_"
    · subst hn
      simpa [dropObsolete] using ih s acc tr hacc htr
    · cases hdrop : ops.dropIndex s n with
      | error e =>
        simp only [dropObsolete, if_neg hn, hdrop]
        refine ⟨fun op hop => ?_, fun d hd => by cases hd⟩
        rcases List.mem_append.1 hop with h | h
        · exact htr op h
        · rcases List.mem_singleton.1 h with rfl
          simp [hn]
      | ok s1 =>
        simp only [dropObsolete, if_neg hn, hdrop]
        apply ih
        · intro hmem
          rcases List.mem_append.1 hmem with h | h
          · exact hacc h
          · exact hn (List.mem_singleton.1 h).symm
        · intro op hop
          rcases List.mem_append.1 hop with h | h
          · exact htr op h
          · rcases List.mem_singleton.1 h with rfl
            simp [hn]

/-- Claim C3: whatever the store state, the store behavior and the
desired index list, `syncIndexes` never issues a drop of `_id_` and a
returned `dropped` list never contains `_id_`. -/
theorem syncIndexes_never_drops_primary {σ : Type} (ops : StoreOps σ) (s : σ)
    (indexes : Option (List IndexDescription)) :
    (∀ op ∈ (syncIndexes ops indexes s).2.2, op ≠ StoreOp.dropIndex "_id_") ∧
    (∀ r, (syncIndexes ops indexes s).1 = .ok r → "_id_" ∉ r.dropped) := by
  cases indexes with
  | none =>
    refine ⟨fun op hop => ?_, fun r hr => ?_⟩
    · simp [syncIndexes] at hop
    · simp only [syncIndexes] at hr
      cases hr
      simp
  | some idxs =>
    by_cases hlen : idxs.length = 0
    · refine ⟨fun op hop => ?_, fun r hr => ?_⟩
      · simp [syncIndexes, hlen] at hop
      · simp only [syncIndexes, if_pos hlen] at hr
        cases hr
        simp
    · cases hls : ops.listIndexes s with
      | error e =>
        refine ⟨fun op hop => ?_, fun r hr => ?_⟩
        · simp [syncIndexes, hlen, hls] at hop
          subst hop
          simp
        · simp [syncIndexes, hlen, hls] at hr
      | ok old =>
        cases hcr : ops.createIndexes s idxs with
        | error e =>
          refine ⟨fun op hop => ?_, fun r hr => ?_⟩
          · simp [syncIndexes, hlen, hls, hcr] at hop
            rcases hop with rfl | rfl <;> simp
          · simp [syncIndexes, hlen, hls, hcr] at hr
        | ok pr =>
          obtain ⟨new, s1⟩ := pr
          have hmain := dropObsolete_protects_primary ops (toDropIndexNames old new) s1 []
            [.listIndexes, .createIndexes idxs] (by simp)
            (by intro op hop
                rcases List.mem_cons.1 hop with rfl | hop
                · simp
                · rcases List.mem_singleton.1 hop with rfl
                  simp)
          have heq := syncIndexes_create_ok ops s idxs old new s1 hlen hls hcr
          rcases hdo : dropObsolete ops s1 (toDropIndexNames old new) []
              [.listIndexes, .createIndexes idxs] with ⟨res, s2, tr2⟩
          rw [hdo] at hmain heq
          cases res with
          | error e =>
            rw [heq]
            exact ⟨hmain.1, fun r hr => by cases hr⟩
          | ok d =>
            rw [heq]
            refine ⟨hmain.1, fun r hr => ?_⟩
            cases hr
            exact hmain.2 d rfl

/-- Witness for `syncIndexes_never_drops_primary`: a run over
`mongoStore` in which `_id_` is a drop candidate (it is existing and
not materialized) still returns a `dropped` list without `_id_`. -/
theorem syncIndexes_never_drops_primary_witness :
    "_id_" ∉ (SyncIndexesResult.mk ["a_1"] ["b_1"]).dropped :=
  (syncIndexes_never_drops_primary mongoStore (some ["_id_", "b_1"])
    (some [⟨[("a", 1)], none⟩])).2 ⟨["a_1"], ["b_1"]⟩ rfl

/-- Helper: a successful drop loop returns the accumulator followed by
every candidate except `_id_`, in candidate order. -/
theorem dropObsolete_ok_dropped {σ : Type} (ops : StoreOps σ) :
    ∀ (names : List String) (s : σ) (acc : List String) (tr : List StoreOp)
      (d : List String) (s2 : σ) (tr2 : List StoreOp),
      dropObsolete ops s names acc tr = (.ok d, s2, tr2) →
      d = acc ++ names.filter (fun n => !(n == "_id_")) := by
  intro names
  induction names with
  | nil =>
    intro s acc tr d s2 tr2 h
    simp only [dropObsolete] at h
    cases h
    simp
  | cons n rest ih =>
    intro s acc tr d s2 tr2 h
    by_cases hn : n = "_id_"
    · subst hn
      simp only [dropObsolete, if_pos rfl] at h
      simpa using ih s acc tr d s2 tr2 h
    · cases hdrop : ops.dropIndex s n with
      | error e =>
        simp only [dropObsolete, if_neg hn, hdrop] at h
        cases h
      | ok s1 =>
        simp only [dropObsolete, if_neg hn, hdrop] at h
        have := ih s1 (acc ++ [n]) (tr ++ [.dropIndex n]) d s2 tr2 h
        simp [this, hn]

/-- Claim C9: when `syncIndexes` returns successfully after a listing
`old` and a creation returning `new`, its `dropped` list is exactly the
candidates `old` minus `new` with `_id_` removed, in `old` order. -/
theorem syncIndexes_dropped_eq_existing_diff {σ : Type} (ops : StoreOps σ) (s : σ)
    (idxs : List IndexDescription) (old new : List String) (s1 : σ)
    (r : SyncIndexesResult) (s2 : σ) (tr : List StoreOp)
    (hne : idxs.length ≠ 0)
    (hlist : ops.listIndexes s = .ok old)
    (hcreate : ops.createIndexes s idxs = .ok (new, s1))
    (hok : syncIndexes ops (some idxs) s = (.ok r, s2, tr)) :
    r.dropped =
      (old.filter (fun n => !new.contains n)).filter (fun n => !(n == "_id_")) ∧
    (∀ n, n ∈ r.dropped ↔ n ∈ old ∧ n ∉ new ∧ n ≠ "_id_") := by
  have heq := syncIndexes_create_ok ops s idxs old new s1 hne hlist hcreate
  rcases hdo : dropObsolete ops s1 (toDropIndexNames old new) []
      [.listIndexes, .createIndexes idxs] with ⟨res, s3, tr3⟩
  rw [hdo] at heq
  cases res with
  | error e =>
    rw [heq] at hok
    cases hok
  | ok d =>
    rw [heq] at hok
    cases hok
    have hd := dropObsolete_ok_dropped ops (toDropIndexNames old new) s1 []
      [.listIndexes, .createIndexes idxs] _ _ _ hdo
    constructor
    · simpa [toDropIndexNames] using hd
    · intro n
      subst hd
      simp only [toDropIndexNames, List.nil_append, List.mem_filter]
      simp only [Bool.not_eq_true']
      constructor
      · rintro ⟨⟨hn1, hn2⟩, hn3⟩
        exact ⟨hn1, by simpa using hn2, by simpa using hn3⟩
      · rintro ⟨hn1, hn2, hn3⟩
        exact ⟨⟨hn1, by simpa using hn2⟩, by simpa using hn3⟩

/-- Witness for `syncIndexes_dropped_eq_existing_diff`: existing
`_id_`, `a_1`, `b_1` with only `a_1` desired drops exactly `b_1`. -/
theorem syncIndexes_dropped_eq_existing_diff_witness :
    (SyncIndexesResult.mk [] ["b_1"]).dropped =
      ((["_id_", "a_1", "b_1"].filter
        (fun n => !(["a_1"] : List String).contains n)).filter
          (fun n => !(n == "_id_"))) :=
  (syncIndexes_dropped_eq_existing_diff mongoStore (some ["_id_", "a_1", "b_1"])
    [⟨[("a", 1)], none⟩] ["_id_", "a_1", "b_1"] ["a_1"]
    (some ["_id_", "a_1", "b_1"]) ⟨[], ["b_1"]⟩ (some ["_id_", "a_1"])
    [.listIndexes, .createIndexes [⟨[("a", 1)], none⟩], .dropIndex "b_1"]
    (by decide) rfl rfl rfl).1

/-- Witness for `syncIndexes_diff_spec`: with existing indexes `_id_`
and `name_1` and materialized names `name_1` and `age_1`, membership of
`age_1` in the created list is equivalent to it being new. -/
theorem syncIndexes_diff_spec_witness :
    "age_1" ∈ createdIndexNames ["_id_", "name_1"] ["name_1", "age_1"] ↔
      "age_1" ∈ ["name_1", "age_1"] ∧ "age_1" ∉ ["_id_", "name_1"] :=
  (syncIndexes_diff_spec mongoStore (some ["_id_", "name_1"])
    [⟨[("name", 1)], none⟩, ⟨[("age", 1)], none⟩]
    ["_id_", "name_1"] ["name_1", "age_1"] (some ["_id_", "name_1", "age_1"])
    (by decide) rfl rfl).1 "age_1"

/-- Helper: over `faultyDropStore failOn`, a drop loop whose candidate
list reaches `failOn` after the prefix `pre` stops at `failOn` with the
injected error; the prefix names other than `_id_` are removed from the
collection (and stay removed — nothing runs after the failure) and the
trace records exactly those drops, in order, followed by the failing
one. -/
theorem dropObsolete_fault_spec (failOn : String) (hfail : failOn ≠ "_id_") :
    ∀ (pre post curE acc : List String) (tr : List StoreOp),
      failOn ∉ pre → pre.Nodup → (∀ n ∈ pre, n ∈ curE) →
      dropObsolete (faultyDropStore failOn) (some curE) (pre ++ failOn :: post) acc tr =
        (.error (.other "drop failed"),
         some (curE.filter (fun m => !(pre.contains m && !(m == "_id_")))),
         tr ++ ((pre.filter (fun n => !(n == "_id_"))) ++ [failOn]).map
           StoreOp.dropIndex) := by
  intro pre
  induction pre with
  | nil =>
    intro post curE acc tr _ _ _
    simp [dropObsolete, if_neg hfail, faultyDropStore]
  | cons p pre2 ih =>
    intro post curE acc tr hnot hnd hsub
    have hnot2 : failOn ∉ pre2 := fun h => hnot (List.mem_cons_of_mem p h)
    have hnd2 : pre2.Nodup := (List.nodup_cons.1 hnd).2
    have hpnot : p ∉ pre2 := (List.nodup_cons.1 hnd).1
    by_cases hp : p = "_id_"
    · subst hp
      rw [List.cons_append]
      simp only [dropObsolete, if_pos rfl]
      have hrec := ih post curE acc tr hnot2 hnd2
        (fun n hn => hsub n (List.mem_cons_of_mem _ hn))
      rw [hrec]
      have hstate : curE.filter (fun m => !(pre2.contains m && !(m == "_id_"))) =
          curE.filter (fun m => !(("_id_" :: pre2).contains m && !(m == "_id_"))) := by
        refine List.filter_congr ?_
        intro m _
        by_cases hm : m = "_id_"
        · subst hm; simp
        · simp [hm]
      have htrace : ("_id_" :: pre2).filter (fun n => !(n == "_id_")) =
          pre2.filter (fun n => !(n == "_id_")) := by simp
      rw [htrace, ← hstate]
      simp
    · have hpf : p ≠ failOn := fun h => hnot (h ▸ List.mem_cons_self p pre2)
      have hpc : p ∈ curE := hsub p (List.mem_cons_self p pre2)
      rw [List.cons_append]
      simp only [dropObsolete, if_neg hp]
      have hdrop : (faultyDropStore failOn).dropIndex (some curE) p =
          .ok (some (curE.filter (fun m => !(m == p)))) := by
        simp [faultyDropStore, mongoDropIndex, hpf, hpc]
      simp only [hdrop]
      have hrec := ih post (curE.filter (fun m => !(m == p))) (acc ++ [p])
        (tr ++ [.dropIndex p]) hnot2 hnd2 ?_
      · rw [hrec]
        have hstate : (curE.filter (fun m => !(m == p))).filter
            (fun m => !(pre2.contains m && !(m == "_id_"))) =
            curE.filter (fun m => !((p :: pre2).contains m && !(m == "_id_"))) := by
          rw [List.filter_filter]
          refine List.filter_congr ?_
          intro m _
          by_cases hmp : m = p
          · subst hmp; simp [hp]
          · simp [hmp]
        have htrace : (p :: pre2).filter (fun n => !(n == "_id_")) =
            p :: pre2.filter (fun n => !(n == "_id_")) := by simp [hp]
        rw [hstate, htrace]
        simp
      · intro n hn
        refine List.mem_filter.2 ⟨hsub n (List.mem_cons_of_mem _ hn), ?_⟩
        have : n ≠ p := fun h => hpnot (h ▸ hn)
        simp [this]

/-- Claim C5: over a store where dropping `failOn` fails, `syncIndexes`
on existing indexes `E` issues the drops sequentially in candidate
order; it stops at `failOn`, propagates the injected error (the result
carries no dropped list), and the candidates before `failOn` (other
than `_id_`) are gone from the final store state — no rollback. -/
theorem syncIndexes_drop_failure_spec (failOn : String) (E : List String)
    (idxs : List IndexDescription) (pre post : List String)
    (hne : idxs.length ≠ 0) (hfail : failOn ≠ "_id_")
    (hnodup : E.Nodup)
    (hsplit : toDropIndexNames E (idxs.map indexName) = pre ++ failOn :: post)
    (hpre : failOn ∉ pre) :
    syncIndexes (faultyDropStore failOn) (some idxs) (some E) =
      (.error (.other "drop failed"),
       some ((E ++ (idxs.map indexName).filter (fun n => !E.contains n)).filter
         (fun m => !(pre.contains m && !(m == "_id_")))),
       [.listIndexes, .createIndexes idxs] ++
         ((pre.filter (fun n => !(n == "_id_"))) ++ [failOn]).map
           StoreOp.dropIndex) := by
  have hlist : (faultyDropStore failOn).listIndexes (some E) = .ok E := rfl
  have hcreate : (faultyDropStore failOn).createIndexes (some E) idxs =
      .ok (idxs.map indexName,
           some (E ++ (idxs.map indexName).filter (fun n => !E.contains n))) := rfl
  have heq := syncIndexes_create_ok (faultyDropStore failOn) (some E) idxs E
    (idxs.map indexName) _ hne hlist hcreate
  have hprend : pre.Nodup := by
    have h1 : (pre ++ failOn :: post).Nodup := hsplit ▸ (hnodup.filter _)
    exact h1.of_append_left
  have hsubE : ∀ n ∈ pre,
      n ∈ E ++ (idxs.map indexName).filter (fun n => !E.contains n) := by
    intro n hn
    have hmem : n ∈ toDropIndexNames E (idxs.map indexName) := by
      rw [hsplit]; exact List.mem_append_left _ hn
    exact List.mem_append_left _ (List.mem_filter.1 hmem).1
  have hfault := dropObsolete_fault_spec failOn hfail pre post
    (E ++ (idxs.map indexName).filter (fun n => !E.contains n)) []
    [.listIndexes, .createIndexes idxs] hpre hprend hsubE
  rw [heq, hsplit, hfault]

/-- Witness for `syncIndexes_drop_failure_spec`: existing indexes
`_id_, a_1, b_1, c_1`, desired only `x_1`, failure injected on `b_1`:
the result is the injected error, `a_1` is gone, `b_1` and `c_1`
remain, and the trace stops right after the failing drop. -/
theorem syncIndexes_drop_failure_spec_witness :
    syncIndexes (faultyDropStore "b_1") (some [⟨[("x", 1)], none⟩])
        (some ["_id_", "a_1", "b_1", "c_1"]) =
      (.error (.other "drop failed"), some ["_id_", "b_1", "c_1", "x_1"],
       [.listIndexes, .createIndexes [⟨[("x", 1)], none⟩],
        .dropIndex "a_1", .dropIndex "b_1"]) := by
  have h := syncIndexes_drop_failure_spec "b_1" ["_id_", "a_1", "b_1", "c_1"]
    [⟨[("x", 1)], none⟩] ["_id_", "a_1"] ["c_1"]
    (by decide) (by decide) (by decide) (by decide) (by decide)
  exact h.trans rfl

/-- Helper: on `mongoStore`, a drop loop over distinct candidate names
that all exist succeeds: it returns the non-`_id_` candidates in order,
removes exactly those from the collection, and records one drop per
non-`_id_` candidate. -/
theorem dropObsolete_mongo_ok :
    ∀ (names curE acc : List String) (tr : List StoreOp),
      names.Nodup → (∀ n ∈ names, n ∈ curE) →
      dropObsolete mongoStore (some curE) names acc tr =
        (.ok (acc ++ names.filter (fun n => !(n == "_id_"))),
         some (curE.filter (fun m => !(names.contains m && !(m == "_id_")))),
         tr ++ (names.filter (fun n => !(n == "_id_"))).map StoreOp.dropIndex) := by
  intro names
  induction names with
  | nil =>
    intro curE acc tr _ _
    simp [dropObsolete]
  | cons p rest ih =>
    intro curE acc tr hnd hsub
    have hnd2 : rest.Nodup := (List.nodup_cons.1 hnd).2
    have hpnot : p ∉ rest := (List.nodup_cons.1 hnd).1
    by_cases hp : p = "_id_"
    · subst hp
      simp only [dropObsolete, if_pos rfl]
      have hrec := ih curE acc tr hnd2 (fun n hn => hsub n (List.mem_cons_of_mem _ hn))
      rw [hrec]
      have hstate : curE.filter (fun m => !(rest.contains m && !(m == "_id_"))) =
          curE.filter (fun m => !(("_id_" :: rest).contains m && !(m == "_id_"))) := by
        refine List.filter_congr ?_
        intro m _
        by_cases hm : m = "_id_"
        · subst hm; simp
        · simp [hm]
      have htrace : ("_id_" :: rest).filter (fun n => !(n == "_id_")) =
          rest.filter (fun n => !(n == "_id_")) := by simp
      rw [htrace, ← hstate]
      simp
    · have hpc : p ∈ curE := hsub p (List.mem_cons_self p rest)
      simp only [dropObsolete, if_neg hp]
      have hdrop : mongoStore.dropIndex (some curE) p =
          .ok (some (curE.filter (fun m => !(m == p)))) := by
        simp [mongoStore, mongoDropIndex, hpc]
      simp only [hdrop]
      have hrec := ih (curE.filter (fun m => !(m == p))) (acc ++ [p])
        (tr ++ [.dropIndex p]) hnd2 ?_
      · rw [hrec]
        have hstate : (curE.filter (fun m => !(m == p))).filter
            (fun m => !(rest.contains m && !(m == "_id_"))) =
            curE.filter (fun m => !((p :: rest).contains m && !(m == "_id_"))) := by
          rw [List.filter_filter]
          refine List.filter_congr ?_
          intro m _
          by_cases hmp : m = p
          · subst hmp; simp [hp]
          · simp [hmp]
        have htrace : (p :: rest).filter (fun n => !(n == "_id_")) =
            p :: rest.filter (fun n => !(n == "_id_")) := by simp [hp]
        rw [hstate, htrace]
        simp
      · intro n hn
        refine List.mem_filter.2 ⟨hsub n (List.mem_cons_of_mem _ hn), ?_⟩
        have hne2 : n ≠ p := fun h => hpnot (h ▸ hn)
        simp [hne2]

/-- Helper: the complete behavior of `syncIndexes` over `mongoStore` on
an existing collection with distinct index names: creation materializes
the desired names, and the non-`_id_` candidates among
existing-minus-materialized are dropped. -/
theorem syncIndexes_mongo_run (E : List String) (idxs : List IndexDescription)
    (hne : idxs.length ≠ 0) (hE : E.Nodup) :
    syncIndexes mongoStore (some idxs) (some E) =
      (.ok ⟨createdIndexNames E (idxs.map indexName),
            (toDropIndexNames E (idxs.map indexName)).filter (fun n => !(n == "_id_"))⟩,
       some ((E ++ (idxs.map indexName).filter (fun n => !E.contains n)).filter
         (fun m => !((toDropIndexNames E (idxs.map indexName)).contains m &&
           !(m == "_id_")))),
       [.listIndexes, .createIndexes idxs] ++
         ((toDropIndexNames E (idxs.map indexName)).filter (fun n => !(n == "_id_"))).map
           StoreOp.dropIndex) := by
  have hcreate : mongoStore.createIndexes (some E) idxs =
      .ok (idxs.map indexName,
           some (E ++ (idxs.map indexName).filter (fun n => !E.contains n))) := rfl
  have heq := syncIndexes_create_ok mongoStore (some E) idxs E (idxs.map indexName) _
    hne rfl hcreate
  have hnd : (toDropIndexNames E (idxs.map indexName)).Nodup := hE.filter _
  have hsub : ∀ n ∈ toDropIndexNames E (idxs.map indexName),
      n ∈ E ++ (idxs.map indexName).filter (fun n => !E.contains n) :=
    fun n hn => List.mem_append_left _ (List.mem_filter.1 hn).1
  have hok := dropObsolete_mongo_ok (toDropIndexNames E (idxs.map indexName))
    (E ++ (idxs.map indexName).filter (fun n => !E.contains n)) []
    [.listIndexes, .createIndexes idxs] hnd hsub
  rw [heq, hok]
  simp

/-- Helper: a second reconciliation over `mongoStore` is a no-op when
every materialized name already exists and every existing name that is
not materialized is `_id_` — exactly the situation `syncIndexes` leaves
behind. -/
theorem syncIndexes_mongo_stable (E1 : List String) (idxs : List IndexDescription)
    (hne : idxs.length ≠ 0) (hE1 : E1.Nodup)
    (hsup : ∀ m ∈ idxs.map indexName, m ∈ E1)
    (hid : ∀ x ∈ E1, x ∉ idxs.map indexName → x = "_id_") :
    ∃ tr2, syncIndexes mongoStore (some idxs) (some E1) = (.ok ⟨[], []⟩, some E1, tr2) := by
  have hrun := syncIndexes_mongo_run E1 idxs hne hE1
  have hadded : (idxs.map indexName).filter (fun n => !E1.contains n) = [] := by
    rw [List.filter_eq_nil_iff]
    intro a ha
    simp [hsup a ha]
  have hcreated : createdIndexNames E1 (idxs.map indexName) = [] := hadded
  have htd : ∀ x ∈ toDropIndexNames E1 (idxs.map indexName), x = "_id_" := by
    intro x hx
    rcases List.mem_filter.1 hx with ⟨hx1, hx2⟩
    exact hid x hx1 (by simpa using hx2)
  have hdropped : (toDropIndexNames E1 (idxs.map indexName)).filter
      (fun n => !(n == "_id_")) = [] := by
    rw [List.filter_eq_nil_iff]
    intro a ha
    simp [htd a ha]
  have hstate : (E1 ++ (idxs.map indexName).filter (fun n => !E1.contains n)).filter
      (fun m => !((toDropIndexNames E1 (idxs.map indexName)).contains m &&
        !(m == "_id_"))) = E1 := by
    rw [hadded, List.append_nil, List.filter_eq_self]
    intro a ha
    by_cases hc : a ∈ toDropIndexNames E1 (idxs.map indexName)
    · simp [htd a hc]
    · simp [hc]
  rw [hcreated, hdropped, hstate] at hrun
  exact ⟨_, hrun⟩

/-- Claim C7: over the contract-satisfying store, reconciling a fixed
non-empty desired set twice in a row succeeds, and the second call
returns empty `created` and `dropped` lists and does not change the
store state.  Distinctness of the existing and of the materialized
names is the store invariant that index names are unique. -/
theorem syncIndexes_idempotent (E : List String) (idxs : List IndexDescription)
    (hne : idxs.length ≠ 0) (hE : E.Nodup) (hM : (idxs.map indexName).Nodup) :
    ∃ r1 E1 tr1 tr2,
      syncIndexes mongoStore (some idxs) (some E) = (.ok r1, some E1, tr1) ∧
      syncIndexes mongoStore (some idxs) (some E1) = (.ok ⟨[], []⟩, some E1, tr2) := by
  have h1 := syncIndexes_mongo_run E idxs hne hE
  have hA : (E ++ (idxs.map indexName).filter (fun n => !E.contains n)).Nodup := by
    refine List.Nodup.append hE (hM.filter _) ?_
    intro a haE haAdded
    rcases List.mem_filter.1 haAdded with ⟨_, hb⟩
    simp [haE] at hb
  have hE1nodup : ((E ++ (idxs.map indexName).filter (fun n => !E.contains n)).filter
      (fun m => !((toDropIndexNames E (idxs.map indexName)).contains m &&
        !(m == "_id_")))).Nodup := hA.filter _
  have hsup : ∀ m ∈ idxs.map indexName,
      m ∈ (E ++ (idxs.map indexName).filter (fun n => !E.contains n)).filter
        (fun m => !((toDropIndexNames E (idxs.map indexName)).contains m &&
          !(m == "_id_"))) := by
    intro m hm
    have hmtd : m ∉ toDropIndexNames E (idxs.map indexName) := by
      intro hc
      rcases List.mem_filter.1 hc with ⟨_, h2⟩
      simp [hm] at h2
    refine List.mem_filter.2 ⟨?_, by simp [hmtd]⟩
    by_cases hmE : m ∈ E
    · exact List.mem_append_left _ hmE
    · exact List.mem_append_right _ (List.mem_filter.2 ⟨hm, by simp [hmE]⟩)
  have hid : ∀ x ∈ (E ++ (idxs.map indexName).filter (fun n => !E.contains n)).filter
      (fun m => !((toDropIndexNames E (idxs.map indexName)).contains m &&
        !(m == "_id_"))),
      x ∉ idxs.map indexName → x = "_id_" := by
    intro x hx hxM
    rcases List.mem_filter.1 hx with ⟨hxA, hP⟩
    have hxE : x ∈ E := by
      rcases List.mem_append.1 hxA with h | h
      · exact h
      · exact absurd (List.mem_filter.1 h).1 hxM
    have hxtd : x ∈ toDropIndexNames E (idxs.map indexName) :=
      List.mem_filter.2 ⟨hxE, by simp [hxM]⟩
    simp [hxtd] at hP
    exact hP
  obtain ⟨tr2, h2⟩ := syncIndexes_mongo_stable
    ((E ++ (idxs.map indexName).filter (fun n => !E.contains n)).filter
      (fun m => !((toDropIndexNames E (idxs.map indexName)).contains m &&
        !(m == "_id_"))))
    idxs hne hE1nodup hsup hid
  exact ⟨_, _, _, tr2, h1, h2⟩

/-- Witness for `syncIndexes_idempotent`: existing indexes `_id_` and
`old_1`, one desired index on `name`. -/
theorem syncIndexes_idempotent_witness :
    ∃ r1 E1 tr1 tr2,
      syncIndexes mongoStore (some [⟨[("name", 1)], none⟩]) (some ["_id_", "old_1"]) =
        (.ok r1, some E1, tr1) ∧
      syncIndexes mongoStore (some [⟨[("name", 1)], none⟩]) (some E1) =
        (.ok ⟨[], []⟩, some E1, tr2) :=
  syncIndexes_idempotent ["_id_", "old_1"] [⟨[("name", 1)], none⟩]
    (by decide) (by decide) (by decide)

/-- Helper: a successful orchestrator run yields exactly one aggregate
entry per registered model, labelled with that model's collection name,
in registration order. -/
theorem tmSyncIndexes_ok_names {δ : Type} (ops : DbOps δ) :
    ∀ (ms : ModelRegistry) (s : δ) (entries : List SyncIndexesResultsEntry)
      (s2 : δ) (tr : List (String × StoreOp)),
      tmSyncIndexes ops ms s = (.ok entries, s2, tr) →
      entries.map SyncIndexesResultsEntry.collectionName =
        ms.map (fun p => p.2.collectionName) := by
  intro ms
  induction ms with
  | nil =>
    intro s entries s2 tr h
    simp only [tmSyncIndexes] at h
    cases h
    rfl
  | cons q rest ih =>
    obtain ⟨k, m⟩ := q
    intro s entries s2 tr h
    rcases h1 : syncIndexes (collOps ops m.collectionName) m.indexes s with ⟨res, s1, tr1⟩
    cases res with
    | error e =>
      simp only [tmSyncIndexes, h1] at h
      cases h
    | ok r =>
      rcases h2 : tmSyncIndexes ops rest s1 with ⟨res2, s3, tr3⟩
      cases res2 with
      | error e =>
        simp only [tmSyncIndexes, h1, h2] at h
        cases h
      | ok es =>
        simp only [tmSyncIndexes, h1, h2] at h
        cases h
        simp only [List.map_cons]
        rw [ih _ _ _ _ h2]

/-- Helper: once one model's reconciliation throws, the orchestrator
returns that error with the trace accumulated so far; the models after
the failing one are never visited and no aggregate is returned. -/
theorem tmSyncIndexes_failfast {δ : Type} (ops : DbOps δ) :
    ∀ (pre : ModelRegistry) (k : String) (m : ModelState) (post : ModelRegistry)
      (s : δ) (es : List SyncIndexesResultsEntry) (s1 : δ)
      (tr1 : List (String × StoreOp)) (e : MongoError) (s2 : δ) (tr2 : List StoreOp),
      tmSyncIndexes ops pre s = (.ok es, s1, tr1) →
      syncIndexes (collOps ops m.collectionName) m.indexes s1 = (.error e, s2, tr2) →
      tmSyncIndexes ops (pre ++ (k, m) :: post) s =
        (.error e, s2, tr1 ++ tr2.map (fun op => (m.collectionName, op))) := by
  intro pre
  induction pre with
  | nil =>
    intro k m post s es s1 tr1 e s2 tr2 h1 h2
    simp only [tmSyncIndexes] at h1
    cases h1
    rw [List.nil_append]
    simp only [tmSyncIndexes, h2]
    simp
  | cons q rest ih =>
    obtain ⟨k0, m0⟩ := q
    intro k m post s es s1 tr1 e s2 tr2 h1 h2
    rw [List.cons_append]
    rcases ha : syncIndexes (collOps ops m0.collectionName) m0.indexes s with ⟨res, sa, tra⟩
    cases res with
    | error e0 =>
      simp only [tmSyncIndexes, ha] at h1
      cases h1
    | ok r =>
      rcases hb : tmSyncIndexes ops rest sa with ⟨res2, sb, trb⟩
      cases res2 with
      | error e0 =>
        simp only [tmSyncIndexes, ha, hb] at h1
        cases h1
      | ok es2 =>
        simp only [tmSyncIndexes, ha, hb] at h1
        cases h1
        simp only [tmSyncIndexes, ha]
        rw [ih k m post sa es2 _ _ e s2 tr2 hb h2]
        simp

/-- Claim C6: the orchestrator visits registered models in registration
order and, on success, produces exactly one `{collectionName, created,
dropped}` entry per model in that order; when one model's
reconciliation fails, the error propagates immediately, the remaining
models are not processed (the result does not depend on them), and no
partial aggregate is returned. -/
theorem tmSyncIndexes_order_and_failfast {δ : Type} (ops : DbOps δ) :
    (∀ (ms : ModelRegistry) (s : δ) (entries : List SyncIndexesResultsEntry)
       (s2 : δ) (tr : List (String × StoreOp)),
       tmSyncIndexes ops ms s = (.ok entries, s2, tr) →
       entries.map SyncIndexesResultsEntry.collectionName =
         ms.map (fun p => p.2.collectionName)) ∧
    (∀ (pre : ModelRegistry) (k : String) (m : ModelState) (post : ModelRegistry)
       (s : δ) (es : List SyncIndexesResultsEntry) (s1 : δ)
       (tr1 : List (String × StoreOp)) (e : MongoError) (s2 : δ) (tr2 : List StoreOp),
       tmSyncIndexes ops pre s = (.ok es, s1, tr1) →
       syncIndexes (collOps ops m.collectionName) m.indexes s1 = (.error e, s2, tr2) →
       tmSyncIndexes ops (pre ++ (k, m) :: post) s =
         (.error e, s2, tr1 ++ tr2.map (fun op => (m.collectionName, op)))) :=
  ⟨fun ms s entries s2 tr h => tmSyncIndexes_ok_names ops ms s entries s2 tr h,
   fun pre k m post s es s1 tr1 e s2 tr2 h1 h2 =>
     tmSyncIndexes_failfast ops pre k m post s es s1 tr1 e s2 tr2 h1 h2⟩

/-- Witness for `tmSyncIndexes_order_and_failfast`: two registered
models; the first reconciles successfully, the second's collection does
not exist so its listing throws, and the whole run returns that error
with no aggregate — the first model's entry is lost. -/
theorem tmSyncIndexes_order_and_failfast_witness :
    tmSyncIndexes mongoDb
        [("users", ⟨"users", some [⟨[("name", 1)], none⟩]⟩),
         ("posts", ⟨"posts", some [⟨[("name", 1)], none⟩]⟩)]
        [("users", some ["_id_"])] =
      (.error (.server ⟨some 26, some "NamespaceNotFound"⟩),
       [("users", some ["_id_", "name_1"])],
       [("users", .listIndexes), ("users", .createIndexes [⟨[("name", 1)], none⟩]),
        ("posts", .listIndexes)]) := by
  have h := (tmSyncIndexes_order_and_failfast mongoDb).2
    [("users", ⟨"users", some [⟨[("name", 1)], none⟩]⟩)] "posts"
    ⟨"posts", some [⟨[("name", 1)], none⟩]⟩ []
    [("users", some ["_id_"])]
    [⟨"users", ["name_1"], []⟩]
    [("users", some ["_id_", "name_1"])]
    [("users", .listIndexes), ("users", .createIndexes [⟨[("name", 1)], none⟩])]
    (.server ⟨some 26, some "NamespaceNotFound"⟩)
    [("users", some ["_id_", "name_1"])] [.listIndexes] rfl rfl
  exact h.trans rfl

/-- Helper: the key order produced by `mapSet` — unchanged when the key
is already registered, appended otherwise. -/
theorem mapSet_keys (ms : ModelRegistry) (k : String) (v : ModelState) :
    (mapSet ms k v).map Prod.fst =
      if k ∈ ms.map Prod.fst then ms.map Prod.fst else ms.map Prod.fst ++ [k] := by
  induction ms with
  | nil => simp [mapSet]
  | cons p rest ih =>
    by_cases hp : p.1 = k
    · simp [mapSet, hp]
    · by_cases hk : k ∈ rest.map Prod.fst <;>
        simp [mapSet, hp, ih, hk, List.mem_cons, Ne.symm hp]

/-- Helper: after `mapSet` the key is always registered. -/
theorem mapSet_mem_keys (ms : ModelRegistry) (k : String) (v : ModelState) :
    k ∈ (mapSet ms k v).map Prod.fst := by
  rw [mapSet_keys]
  by_cases hk : k ∈ ms.map Prod.fst
  · rw [if_pos hk]; exact hk
  · rw [if_neg hk]; exact List.mem_append_right _ (List.mem_singleton_self k)

/-- Helper: looking the key up after `mapSet` finds the new value. -/
theorem mapSet_find (ms : ModelRegistry) (k : String) (v : ModelState) :
    (mapSet ms k v).find? (fun p => p.1 == k) = some (k, v) := by
  induction ms with
  | nil => simp [mapSet, List.find?]
  | cons p rest ih =>
    by_cases hp : p.1 = k
    · simp [mapSet, hp, List.find?]
    · simp [mapSet, hp, List.find?, ih]

/-- Helper: `mapSet` keeps the registry keys pairwise distinct. -/
theorem mapSet_keys_nodup (ms : ModelRegistry) (k : String) (v : ModelState)
    (h : (ms.map Prod.fst).Nodup) : ((mapSet ms k v).map Prod.fst).Nodup := by
  rw [mapSet_keys]
  by_cases hk : k ∈ ms.map Prod.fst
  · rw [if_pos hk]; exact h
  · rw [if_neg hk]
    refine List.Nodup.append h (List.nodup_singleton k) ?_
    intro a ha hak
    rw [List.mem_singleton] at hak
    exact hk (hak ▸ ha)

/-- Helper: `mapSet` preserves the invariant that every registered
model is bound to the collection name it is keyed under, which
`tmModel` establishes. -/
theorem mapSet_values (k : String) (v : ModelState) (hv : v.collectionName = k) :
    ∀ (ms : ModelRegistry), (∀ p ∈ ms, (p.2).collectionName = p.1) →
      ∀ p ∈ mapSet ms k v, (p.2).collectionName = p.1 := by
  intro ms
  induction ms with
  | nil =>
    intro _ p hp
    simp [mapSet] at hp
    subst hp
    exact hv
  | cons q rest ih =>
    intro h p hp
    by_cases hq : q.1 = k
    · simp [mapSet, hq] at hp
      rcases hp with rfl | hp
      · exact hv
      · exact h p (List.mem_cons_of_mem _ hp)
    · simp [mapSet, hq] at hp
      rcases hp with rfl | hp
      · exact h _ (List.mem_cons_self _ _)
      · exact ih (fun r hr => h r (List.mem_cons_of_mem _ hr)) p hp

/-- Claim C10: registering the same collection name twice keeps the
binding's position from the first registration (re-registration does
not change the key order; a single registration appends only when the
name is new), the later value wins on lookup, keys stay pairwise
distinct, and therefore a successful aggregate run over such a registry
has exactly one entry per registered name, in key order — at most one
per collection name. -/
theorem tmModel_last_wins (ms : ModelRegistry) (name : String)
    (ix1 ix2 : Option (List IndexDescription)) :
    ((tmModel (tmModel ms name ix1) name ix2).map Prod.fst =
       (tmModel ms name ix1).map Prod.fst) ∧
    (name ∉ ms.map Prod.fst →
       (tmModel ms name ix1).map Prod.fst = ms.map Prod.fst ++ [name]) ∧
    (name ∈ ms.map Prod.fst →
       (tmModel ms name ix1).map Prod.fst = ms.map Prod.fst) ∧
    ((tmModel (tmModel ms name ix1) name ix2).find? (fun p => p.1 == name) =
       some (name, ⟨name, ix2⟩)) ∧
    ((ms.map Prod.fst).Nodup →
       ((tmModel (tmModel ms name ix1) name ix2).map Prod.fst).Nodup) ∧
    (∀ (δ : Type) (ops : DbOps δ) (s : δ) (entries : List SyncIndexesResultsEntry)
       (s2 : δ) (tr : List (String × StoreOp)),
       (ms.map Prod.fst).Nodup →
       (∀ p ∈ ms, (p.2).collectionName = p.1) →
       tmSyncIndexes ops (tmModel (tmModel ms name ix1) name ix2) s =
         (.ok entries, s2, tr) →
       (entries.map SyncIndexesResultsEntry.collectionName).Nodup ∧
       entries.map SyncIndexesResultsEntry.collectionName =
         (tmModel (tmModel ms name ix1) name ix2).map Prod.fst) := by
  refine ⟨?_, ?_, ?_, ?_, ?_, ?_⟩
  · simp only [tmModel]
    rw [mapSet_keys]
    rw [if_pos (mapSet_mem_keys ms name ⟨name, ix1⟩)]
  · intro h
    simp only [tmModel]
    rw [mapSet_keys, if_neg h]
  · intro h
    simp only [tmModel]
    rw [mapSet_keys, if_pos h]
  · exact mapSet_find _ name ⟨name, ix2⟩
  · intro h
    exact mapSet_keys_nodup _ _ _ (mapSet_keys_nodup _ _ _ h)
  · intro δ ops s entries s2 tr hnd hvals hrun
    have hvals2 : ∀ p ∈ tmModel (tmModel ms name ix1) name ix2,
        (p.2).collectionName = p.1 :=
      mapSet_values name ⟨name, ix2⟩ rfl _
        (mapSet_values name ⟨name, ix1⟩ rfl ms hvals)
    have hnames := tmSyncIndexes_ok_names ops _ s entries s2 tr hrun
    have hmapeq : (tmModel (tmModel ms name ix1) name ix2).map
        (fun p => p.2.collectionName) =
        (tmModel (tmModel ms name ix1) name ix2).map Prod.fst :=
      List.map_congr_left (fun p hp => hvals2 p hp)
    have hkeys : entries.map SyncIndexesResultsEntry.collectionName =
        (tmModel (tmModel ms name ix1) name ix2).map Prod.fst :=
      hnames.trans hmapeq
    refine ⟨?_, hkeys⟩
    rw [hkeys]
    exact mapSet_keys_nodup _ _ _ (mapSet_keys_nodup _ _ _ hnd)

/-- Witness for `tmModel_last_wins`: the empty registry, `b` registered
twice (first without indexes, then with one index on `x`), run over the
concrete store: the aggregate has the single entry `b`. -/
theorem tmModel_last_wins_witness :
    (([⟨"b", ["x_1"], []⟩] : List SyncIndexesResultsEntry).map
        SyncIndexesResultsEntry.collectionName).Nodup ∧
      ([⟨"b", ["x_1"], []⟩] : List SyncIndexesResultsEntry).map
          SyncIndexesResultsEntry.collectionName =
        (tmModel (tmModel [] "b" none) "b" (some [⟨[("x", 1)], none⟩])).map Prod.fst :=
  (tmModel_last_wins [] "b" none (some [⟨[("x", 1)], none⟩])).2.2.2.2.2
    DbState mongoDb [("b", some ["_id_"])] [⟨"b", ["x_1"], []⟩]
    [("b", some ["_id_", "x_1"])]
    [("b", .listIndexes), ("b", .createIndexes [⟨[("x", 1)], none⟩])]
    (by simp) (by simp) rfl

end TypedMongoSpec
